import Mathlib

/-!
# Verification of the Econ-Trends repository

Shallow embedding of `src/main.py` (classes `FredAPI`, `Transformations`,
`YahooFinanceAPI`) and of the duplicated defunct module.  Tables are lists of
rows, dates are `(year, month, day)` triples, numeric cells are `Option ℚ`
(`none` = polars `null`), and the polars operations used by the repository
(`sort`, `group_by`/`agg`, `str.replace`, `cast`, outer-coalesce `join`, ...)
are translated to executable Lean functions on those lists.
-/

namespace EconTrends

/-- A calendar date `(year, month, day)`, as produced by the polars
`str.to_date "%Y-%m-%d"` parse of the providers' date strings. -/
@[ext]
structure Date where
  year : Nat
  month : Nat
  day : Nat
deriving DecidableEq

/-- Lexicographic (chronological) order on dates; this is the order polars
uses for `sort(by="date")` on a date column. -/
def Date.leP (a b : Date) : Prop :=
  a.year < b.year ∨
    (a.year = b.year ∧ (a.month < b.month ∨ (a.month = b.month ∧ a.day ≤ b.day)))

/-- Strict chronological order on dates. -/
def Date.ltP (a b : Date) : Prop :=
  a.year < b.year ∨
    (a.year = b.year ∧ (a.month < b.month ∨ (a.month = b.month ∧ a.day < b.day)))

instance (a b : Date) : Decidable (Date.leP a b) := by
  unfold Date.leP; infer_instance

instance (a b : Date) : Decidable (Date.ltP a b) := by
  unfold Date.ltP; infer_instance

theorem Date.leP_refl (a : Date) : Date.leP a a := by
  unfold Date.leP; omega

theorem Date.leP_trans {a b c : Date} (h1 : Date.leP a b) (h2 : Date.leP b c) :
    Date.leP a c := by
  unfold Date.leP at *; omega

theorem Date.leP_total (a b : Date) : Date.leP a b ∨ Date.leP b a := by
  unfold Date.leP; omega

theorem Date.leP_antisymm {a b : Date} (h1 : Date.leP a b) (h2 : Date.leP b a) :
    a = b := by
  unfold Date.leP at *; ext <;> omega

theorem Date.ltP_iff {a b : Date} : Date.ltP a b ↔ Date.leP a b ∧ a ≠ b := by
  unfold Date.ltP Date.leP
  constructor
  · intro h
    refine ⟨by omega, fun hab => ?_⟩
    subst hab; omega
  · rintro ⟨hle, hne⟩
    by_contra hcon
    exact hne (by ext <;> omega)

theorem Date.ltP_asymm {a b : Date} (h1 : Date.ltP a b) (h2 : Date.ltP b a) : False := by
  unfold Date.ltP at *; omega

/-- The month key derived from a date: the code runs
`pl.col("date").dt.strftime("%Y-%m").str.to_date("%Y-%m")`, which truncates a
date to its `(year, month)` component (the re-parsed first-of-month date is in
bijection with the `(year, month)` pair). -/
abbrev Month := Nat × Nat

/-- Truncation of a date to its month key. -/
def monthKey (d : Date) : Month := (d.year, d.month)

/-! ## The FRED value-cleaning step (`FredAPI.full_dataframe`, line 58)

The code runs `pl.col("value").str.replace(".", 0).cast(pl.Float32)` on the
raw FRED value strings.  polars `str.replace(pattern, value)` treats `pattern`
as a Rust regex (`literal=False`) and replaces only the leftmost match
(`n=1`); the regex `.` matches any single character except a newline.  The
replacement value `0` reaches the string kernel as the string `"0"`.
-/

/-- The `str.replace(".", 0)` step on the character list of a value string:
replace the leftmost character that the regex `.` matches (i.e. the leftmost
non-newline character) with `"0"`; a string with no match is unchanged. -/
def replaceDotChars : List Char → List Char
  | [] => []
  | c :: cs => if c = '\n' then c :: replaceDotChars cs else '0' :: cs

/-- The full `str.replace(".", 0)` step on a value string. -/
def fredValueReplace (s : String) : String := String.mk (replaceDotChars s.data)

/-- Value of a list of decimal digit characters, `none` if any character is
not a digit (the empty list has value `0`; emptiness is guarded by callers). -/
def digitsVal : List Char → Option Nat
  | [] => some 0
  | c :: cs =>
      if c.isDigit then (digitsVal cs).map (fun n => (c.toNat - 48) * 10 ^ cs.length + n)
      else none

/-- Plain decimal parse of an unsigned character list (`"25"`, `"25.3"`),
exact over `ℚ`; `none` when the cast would fail. -/
def parseUnsignedDec (l : List Char) : Option ℚ :=
  if l = [] then none
  else
    let ip := l.takeWhile (fun c => decide (c ≠ '.'))
    match l.dropWhile (fun c => decide (c ≠ '.')) with
    | [] => (digitsVal ip).map (fun n => (n : ℚ))
    | _ :: frac =>
        if ip = [] ∧ frac = [] then none
        else
          match digitsVal ip, digitsVal frac with
          | some i, some f => some ((i : ℚ) + (f : ℚ) / (10 : ℚ) ^ frac.length)
          | _, _ => none

/-- The `.cast(pl.Float32)` step: parse a (possibly signed) decimal string to
a number.  The repository's values are short decimal strings, for which the
float conversion is exact, so the cast is modelled over `ℚ`; `none` stands
for the error the strict cast raises on a non-numeric string. -/
def castFloatQ (s : String) : Option ℚ :=
  match s.data with
  | [] => none
  | c :: rest =>
      if c = '-' then (parseUnsignedDec rest).map Neg.neg
      else parseUnsignedDec (c :: rest)

/-- The complete value-cleaning step of `FredAPI.full_dataframe`:
`str.replace(".", 0)` followed by `cast(pl.Float32)`. -/
def fredCleanValue (s : String) : Option ℚ := castFloatQ (fredValueReplace s)

/-! ## The monthly aggregation (`Transformations.day_to_month_column`)

The code takes the two-column view `df[["date", col_name]]`, sorts it by
`date` ascending, truncates the date column to its month, drops rows with a
null in either column, groups by the (truncated) date and aggregates
`first/last/min/max/mean/median/sum/quantile(.25)/quantile(.75)` of the value
column, and finally sorts the grouped output by the month key.
-/

/-- A row of the two-column view `df[["date", col_name]]`; either cell may be
polars `null`. -/
abbrev Row := Option Date × Option ℚ

/-- Order on optional dates used by `sort(by="date")`: chronological, with
null dates placed first (polars default `nulls_last=False`). -/
def optDateLe : Option Date → Option Date → Prop
  | none, _ => True
  | some _, none => False
  | some x, some y => Date.leP x y

instance : ∀ a b : Option Date, Decidable (optDateLe a b)
  | none, _ => isTrue trivial
  | some _, none => isFalse fun h => h
  | some x, some y => inferInstanceAs (Decidable (Date.leP x y))

/-- The row order of `sort(by="date")` on the two-column view. -/
def rowLe (a b : Row) : Prop := optDateLe a.1 b.1

instance : DecidableRel rowLe := fun a b =>
  inferInstanceAs (Decidable (optDateLe a.1 b.1))

instance : IsTotal Row rowLe where
  total a b := by
    rcases a with ⟨_ | x, _⟩ <;> rcases b with ⟨_ | y, _⟩ <;>
      simp only [rowLe, optDateLe] <;> try exact Or.inl trivial
    · exact Or.inr trivial
    · exact Date.leP_total x y

instance : IsTrans Row rowLe where
  trans a b c h1 h2 := by
    rcases a with ⟨_ | x, _⟩ <;> rcases b with ⟨_ | y, _⟩ <;> rcases c with ⟨_ | z, _⟩ <;>
      simp only [rowLe, optDateLe] at * <;> first
        | trivial
        | exact Date.leP_trans h1 h2

/-- `sort(by="date")` on the two-column view, modelled by insertion sort
(polars' sort is not order-stable on tied keys; theorems that depend on tie
order therefore assume distinct dates). -/
def sortByDate (rows : List Row) : List Row := List.insertionSort rowLe rows

/-- The usable content of a row after the month-truncation step and
`drop_nulls()`: a row survives iff both its date and its value are non-null.
The full date is kept here (the code overwrites the date column with its
month truncation; grouping below applies `monthKey` to this date, which is
the same group key, and the within-group order is the positional order
either way). -/
def cleanRow? (r : Row) : Option (Date × ℚ) :=
  match r with
  | (some d, some v) => some (d, v)
  | _ => none

/-- The sorted, truncation-surviving rows that enter `group_by`. -/
def cleanRowsD (rows : List Row) : List (Date × ℚ) :=
  (sortByDate rows).filterMap cleanRow?

/-- Sorted copy of a group's values (polars aggregations that need order,
`median` and `quantile`, sort the group's values internally). -/
def sortedVals (l : List ℚ) : List ℚ := List.insertionSort (· ≤ ·) l

/-- `pl.col(c).first()` over a group (groups are never empty; `0` is an
unreachable default). -/
def statFirst (l : List ℚ) : ℚ := l.headD 0

/-- `pl.col(c).last()` over a group. -/
def statLast (l : List ℚ) : ℚ := l.getLastD 0

/-- `pl.col(c).min()` over a group. -/
def statMin : List ℚ → ℚ
  | [] => 0
  | x :: xs => xs.foldl min x

/-- `pl.col(c).max()` over a group. -/
def statMax : List ℚ → ℚ
  | [] => 0
  | x :: xs => xs.foldl max x

/-- `pl.col(c).mean()` over a group. -/
def statMean (l : List ℚ) : ℚ := l.sum / (l.length : ℚ)

/-- `pl.col(c).median()` over a group: middle sorted value for an odd count,
average of the two middle sorted values for an even count. -/
def statMedian (l : List ℚ) : ℚ :=
  let s := sortedVals l
  if s.length % 2 = 1 then s.getD (s.length / 2) 0
  else (s.getD (s.length / 2 - 1) 0 + s.getD (s.length / 2) 0) / 2

/-- The index used by `pl.col(c).quantile(q)` with polars' default
`interpolation="nearest"`: `round(q * (n - 1))`, rounding half away from zero
(Rust `f64::round`; the index computation is exact for `q ∈ {1/4, 3/4}`). -/
def nearestQIdx (q : ℚ) (n : Nat) : Nat := (⌊(n - 1 : ℚ) * q + 1 / 2⌋).toNat

/-- `pl.col(c).quantile(q)` over a group with the default
`interpolation="nearest"`: the sorted value at index `nearestQIdx`. -/
def statQuantile (q : ℚ) (l : List ℚ) : ℚ :=
  (sortedVals l).getD (nearestQIdx q l.length) 0

/-- One output row of the monthly aggregation: the month key plus the nine
statistics columns `first_/last_/min_/max_/mean_/median_/sum_/quantile_25_/
quantile_75_<col_name>` (field names abbreviate the polars column names). -/
structure MonthRow where
  month : Month
  first : ℚ
  last : ℚ
  minv : ℚ
  maxv : ℚ
  mean : ℚ
  median : ℚ
  sumv : ℚ
  q25 : ℚ
  q75 : ℚ
deriving DecidableEq

/-- The aggregation of one month group over its (positionally ordered,
non-null) values. -/
def mkStats (m : Month) (l : List ℚ) : MonthRow :=
  { month := m
    first := statFirst l
    last := statLast l
    minv := statMin l
    maxv := statMax l
    mean := statMean l
    median := statMedian l
    sumv := l.sum
    q25 := statQuantile (1 / 4) l
    q75 := statQuantile (3 / 4) l }

/-- The values of one month group, in the positional (ascending-date) order
of the cleaned rows. -/
def monthGroupVals (clean : List (Date × ℚ)) (m : Month) : List ℚ :=
  (clean.filter fun r => decide (monthKey r.1 = m)).map fun r => r.2

/-- `group_by("date").agg(...)` followed by `.sort("date")`, applied to the
cleaned sorted rows: one output row per distinct month, in ascending month
order (the cleaned rows are sorted by full date and month truncation is
monotone, so `dedup` of the month sequence is exactly the ascending list of
distinct months), with each group's values in ascending-date positional
order. -/
def aggClean (clean : List (Date × ℚ)) : List MonthRow :=
  ((clean.map fun r => monthKey r.1).dedup).map fun m =>
    mkStats m (monthGroupVals clean m)

/-- `Transformations.day_to_month_column` on the two-column view. -/
def day_to_month_column (rows : List Row) : List MonthRow :=
  aggClean (cleanRowsD rows)

/-- The non-missing values of one month taken directly from the input rows
(in input order): the values of the rows with a non-null date truncating to
the month and a non-null value.  Used to state properties of the output
against the input. -/
def monthValsInput (rows : List Row) (m : Month) : List ℚ :=
  monthGroupVals (rows.filterMap cleanRow?) m

/-! ## The named-column frame and the column-selection step

`day_to_month_column` starts with `df[["date", col_name]]`; selecting a
column name that is not in the frame raises polars' column-not-found error
(the `InvalidColumn` condition of the spec).
-/

/-- The aggregation's error condition. -/
inductive AggError where
  | invalidColumn
deriving DecidableEq

/-- Index of a column name in a list of column names. -/
def colIndex (c : String) : List String → Option Nat
  | [] => none
  | c2 :: cs => if c = c2 then some 0 else (colIndex c cs).map (· + 1)

/-- A frame with a `date` column and named value columns; every row holds an
optional date and one optional value per value column. -/
structure Frame where
  valueCols : List String
  rows : List (Option Date × List (Option ℚ))

/-- The column names of a frame. -/
def Frame.columns (f : Frame) : List String := "date" :: f.valueCols

/-- The `df[["date", col_name]]` selection: the two-column view on success,
the invalid-column error when the name does not exist. -/
def Frame.getColumn (f : Frame) (c : String) : Except AggError (List Row) :=
  match colIndex c f.valueCols with
  | some i => Except.ok (f.rows.map fun r => (r.1, r.2.getD i none))
  | none => Except.error AggError.invalidColumn

/-- `Transformations.day_to_month_column` including its fallible
column-selection step. -/
def dayToMonthChecked (f : Frame) (c : String) : Except AggError (List MonthRow) :=
  (f.getColumn c).map day_to_month_column

/-! ## The daily table builder (`YahooFinanceAPI.daily_stock_dataframe`) -/

/-- Null-propagating subtraction of two optional cells
(polars `pl.col(a) - pl.col(b)`). -/
def optSub (a b : Option ℚ) : Option ℚ :=
  match a, b with
  | some x, some y => some (x - y)
  | _, _ => none

/-- A raw price record from the price provider: the unformatted `date` field
(dropped by the builder), the parsed `formatted_date`, and the optional OHLCV
fields.  `open_`/`close_` carry a trailing underscore because `open` is a
Lean keyword. -/
structure RawRecord where
  rawDate : Int
  formatted_date : Date
  volume : Option ℚ
  open_ : Option ℚ
  close_ : Option ℚ
  high : Option ℚ
  low : Option ℚ
deriving DecidableEq

/-- A row of the built daily table, in the column order selected by the code:
`{date, volume, open, close, high, low, H-L, C-O}`. -/
structure DailyRow where
  date : Date
  volume : Option ℚ
  open_ : Option ℚ
  close_ : Option ℚ
  high : Option ℚ
  low : Option ℚ
  hl : Option ℚ
  co : Option ℚ
deriving DecidableEq

/-- The column names of the built daily table, in output order. -/
def dailyColumns : List String :=
  ["date", "volume", "open", "close", "high", "low", "H-L", "C-O"]

/-- The per-row transform of `daily_stock_dataframe`: keep the OHLCV cells,
rename `formatted_date` to `date` (dropping the raw `date` field), and derive
`H-L = high - low` and `C-O = close - open` with null propagation. -/
def toDailyRow (r : RawRecord) : DailyRow :=
  { date := r.formatted_date
    volume := r.volume
    open_ := r.open_
    close_ := r.close_
    high := r.high
    low := r.low
    hl := optSub r.high r.low
    co := optSub r.close_ r.open_ }

/-- The `sort(by="date")` order on built daily rows. -/
def dailyRowLe (a b : DailyRow) : Prop := Date.leP a.date b.date

instance : DecidableRel dailyRowLe := fun a b =>
  inferInstanceAs (Decidable (Date.leP a.date b.date))

instance : IsTotal DailyRow dailyRowLe where
  total a b := Date.leP_total a.date b.date

instance : IsTrans DailyRow dailyRowLe where
  trans _ _ _ h1 h2 := Date.leP_trans h1 h2

/-- `YahooFinanceAPI.daily_stock_dataframe` after the provider fetch: derive
the two calculation columns per row, then sort ascending by date. -/
def daily_stock_dataframe (rs : List RawRecord) : List DailyRow :=
  List.insertionSort dailyRowLe (rs.map toDailyRow)

/-! ## The pairwise outer-coalesce join (the Table Joiner)

`left.join(right, on="date", how="outer_coalesce")` followed by
`.sort(by="date")`, modelled for tables whose `date` keys are unique (the
Daily/Monthly Table invariant; with unique keys each key matches at most one
row on each side).  The coalesced key column is the sorted union of the two
key sets; right-hand columns whose name collides with a left-hand column get
polars' default `"_right"` suffix; a side that lacks a key contributes a null
for each of its value columns.
-/

/-- A keyed table entering the joiner: value column names, and rows of a
`date` key plus one optional cell per value column. -/
structure JDF where
  cols : List String
  rows : List (Date × List (Option ℚ))
deriving DecidableEq

/-- The joined column list: left columns, then right columns with the
`"_right"` suffix on names that collide with a left column. -/
def suffixCols (lcols rcols : List String) : List String :=
  lcols ++ rcols.map fun c => if c ∈ lcols then c ++ "_right" else c

/-- Insert a key into a strictly-ascending key list, dropping duplicates. -/
def insertKey (x : Date) : List Date → List Date
  | [] => [x]
  | y :: ys =>
      if Date.ltP x y then x :: y :: ys
      else if x = y then y :: ys
      else y :: insertKey x ys

/-- The sorted, deduplicated union of key lists (the coalesced key column of
the outer join, after the final sort). -/
def sortDedupKeys (l : List Date) : List Date := l.foldr insertKey []

/-- The value cells of the row with the given key, if present. -/
def lookupRow (rows : List (Date × List (Option ℚ))) (d : Date) :
    Option (List (Option ℚ)) :=
  (rows.find? fun r => decide (r.1 = d)).map fun r => r.2

/-- `left.join(right, on="date", how="outer_coalesce")` followed by
`.sort(by="date")`, for unique-key tables. -/
def joinOuterCoalesce (l r : JDF) : JDF :=
  { cols := suffixCols l.cols r.cols
    rows :=
      (sortDedupKeys ((l.rows.map fun x => x.1) ++ (r.rows.map fun x => x.1))).map
        fun d =>
          (d, ((lookupRow l.rows d).getD (List.replicate l.cols.length none)) ++
              ((lookupRow r.rows d).getD (List.replicate r.cols.length none))) }

/-- The quantile the spec prescribes, written from the spec's words ("linear
interpolation quantile: for fraction `q` over `n` sorted values, position
`p = q*(n-1)`, interpolate between the sorted values at the adjacent ranks"),
for comparison against the code's `statQuantile`. -/
def linearQuantileSpec (q : ℚ) (l : List ℚ) : ℚ :=
  let s := sortedVals l
  let p : ℚ := q * ((l.length : ℚ) - 1)
  let lo := s.getD (⌊p⌋).toNat 0
  let hi := s.getD (⌈p⌉).toNat 0
  lo + (p - (⌊p⌋ : ℚ)) * (hi - lo)

/-! ## Example inputs -/

/-- The spec's worked example: the three January daily rows
`[(01-05, 10), (01-20, 30), (01-15, 20)]`, in the given (unsorted) order,
with the example's unspecified year taken to be 2024. -/
def exampleJanRows : List Row :=
  [(some ⟨2024, 1, 5⟩, some 10), (some ⟨2024, 1, 20⟩, some 30),
    (some ⟨2024, 1, 15⟩, some 20)]

/-- The same three January rows supplied in a different order. -/
def exampleJanRowsPerm : List Row :=
  [(some ⟨2024, 1, 15⟩, some 20), (some ⟨2024, 1, 5⟩, some 10),
    (some ⟨2024, 1, 20⟩, some 30)]

/-- The single monthly row the code produces on `exampleJanRows`. -/
def exampleMonthRow : MonthRow :=
  { month := (2024, 1), first := 10, last := 30, minv := 10, maxv := 30,
    mean := 20, median := 20, sumv := 60, q25 := 20, q75 := 30 }

/-! ## Helper lemmas -/

theorem cleanRowsD_perm (rows : List Row) :
    (cleanRowsD rows).Perm (rows.filterMap cleanRow?) :=
  (List.perm_insertionSort rowLe rows).filterMap cleanRow?

theorem cleanRow?_eq_some {r : Row} {p : Date × ℚ} :
    cleanRow? r = some p ↔ r = (some p.1, some p.2) := by
  rcases r with ⟨_ | d, _ | v⟩ <;> rcases p with ⟨pd, pv⟩ <;>
    simp [cleanRow?, and_comm]

theorem cleanRow?_none_snd (d0 : Option Date) : cleanRow? (d0, none) = none := by
  cases d0 <;> rfl

theorem mem_cleanRowsD {rows : List Row} {p : Date × ℚ} :
    p ∈ cleanRowsD rows ↔ (some p.1, some p.2) ∈ rows := by
  rw [(cleanRowsD_perm rows).mem_iff, List.mem_filterMap]
  constructor
  · rintro ⟨r, hr, hcr⟩
    rw [cleanRow?_eq_some] at hcr
    rwa [hcr] at hr
  · intro h
    exact ⟨_, h, by rw [cleanRow?_eq_some]⟩

theorem cleanRowsD_sorted (rows : List Row) :
    (cleanRowsD rows).Pairwise fun p q => Date.leP p.1 q.1 := by
  have hs : (sortByDate rows).Pairwise rowLe := List.sorted_insertionSort rowLe rows
  refine hs.filterMap cleanRow? fun a b hab p hp q hq => ?_
  rw [Option.mem_def, cleanRow?_eq_some] at hp hq
  subst hp; subst hq
  exact hab

/-- Two cleaned rows with the same date are the same row, when the cleaned
dates are distinct. -/
theorem snd_eq_of_nodup_keys {l : List (Date × ℚ)} (h : (l.map fun r => r.1).Nodup)
    {d : Date} {x y : ℚ} (hx : (d, x) ∈ l) (hy : (d, y) ∈ l) : x = y := by
  induction l with
  | nil => cases hx
  | cons a t ih =>
      rw [List.map_cons, List.nodup_cons] at h
      rcases List.mem_cons.1 hx with rfl | hx2
      · rcases List.mem_cons.1 hy with h2 | hy2
        · exact (congrArg Prod.snd h2).symm
        · exact absurd (List.mem_map.2 ⟨(d, y), hy2, rfl⟩) h.1
      · rcases List.mem_cons.1 hy with rfl | hy2
        · exact absurd (List.mem_map.2 ⟨(d, x), hx2, rfl⟩) h.1
        · exact ih h.2 hx2 hy2

/-- Membership in the aggregation output, unfolded. -/
theorem mem_day_to_month {rows : List Row} {row : MonthRow} :
    row ∈ day_to_month_column rows ↔
      ∃ m ∈ ((cleanRowsD rows).map fun r => monthKey r.1).dedup,
        row = mkStats m (monthGroupVals (cleanRowsD rows) m) := by
  unfold day_to_month_column aggClean
  rw [List.mem_map]
  constructor
  · rintro ⟨m, hm, rfl⟩; exact ⟨m, hm, rfl⟩
  · rintro ⟨m, hm, rfl⟩; exact ⟨m, hm, rfl⟩

theorem month_mkStats (m : Month) (l : List ℚ) : (mkStats m l).month = m := rfl

/-- The spec example, evaluated through the code's pipeline. -/
theorem monthly_example_eval :
    day_to_month_column exampleJanRows = [exampleMonthRow] := by
  have h1 : nearestQIdx (1 / 4) 3 = 1 := by
    norm_num [nearestQIdx, Int.floor_eq_iff]
  have h2 : nearestQIdx (3 / 4) 3 = 2 := by
    norm_num [nearestQIdx, Int.floor_eq_iff, show (2 : ℤ).toNat = 2 from rfl]
  norm_num [exampleJanRows, exampleMonthRow, day_to_month_column, aggClean, cleanRowsD,
    sortByDate, cleanRow?, mkStats, monthGroupVals, statFirst, statLast, statMin, statMax,
    statMean, statMedian, statQuantile, sortedVals, h1, h2, List.insertionSort,
    List.orderedInsert, rowLe, optDateLe, Date.leP, monthKey, List.filterMap_cons,
    List.getLastD, List.getD]

theorem colIndex_eq_none {c : String} : ∀ {l : List String}, c ∉ l → colIndex c l = none
  | [], _ => rfl
  | c2 :: cs, h => by
      have hne : ¬c = c2 := fun he => h (by rw [he]; exact List.mem_cons_self c2 cs)
      rw [colIndex, if_neg hne, colIndex_eq_none fun hm => h (List.mem_cons_of_mem _ hm)]
      rfl

/-! ## C1 -/

/-- C1: the spec requires the provider sentinel `"."` to become a missing
cell.  The code instead turns it into the number `0.0`: `str.replace(".", 0)`
rewrites the string `"."` to `"0"`, which the float cast parses as zero, so
the resulting cell is `0.0` and not null.  This theorem evaluates the code's
value-cleaning step at the failing input `"."`. -/
theorem c1_sentinel_becomes_zero :
    fredCleanValue "." = some 0 ∧ fredCleanValue "." ≠ none := by
  exact ⟨by decide, by decide⟩

/-! ## C2 -/

/-- C2 (counterexample): the claim says every non-empty value string reaches
the float cast with its first character replaced by `"0"`.  The regex `.`
does not match a newline, so the string `"\n5"` reaches the cast as `"\n0"`
(its second character replaced), not as `"05"`. -/
theorem c2_counterexample :
    fredValueReplace "\n5" ≠ "05" ∧ fredValueReplace "\n5" = "\n0" := by
  exact ⟨by decide, by decide⟩

/-- C2 (amended): for every observation whose value is a non-empty string
whose first character is not a newline, the string passed to the float cast
equals the original string with its first character replaced by `"0"` (the
replacement pattern `"."` is a regex matching any character except newline,
`n = 1`); so e.g. `"25.3"` is parsed as `5.3`, and non-sentinel numeric
strings are not preserved unchanged. -/
theorem c2_first_char_replaced (c : Char) (cs : List Char) (hc : c ≠ '\n') :
    fredValueReplace (String.mk (c :: cs)) = String.mk ('0' :: cs)
    ∧ fredCleanValue "25.3" = some (53 / 10)
    ∧ fredCleanValue "25.3" ≠ some (253 / 10) := by
  have hval : fredCleanValue "25.3" = some (53 / 10) := by
    have h1 : fredValueReplace "25.3" = "05.3" := by decide
    have h2 : ("05.3" : String).data = ['0', '5', '.', '3'] := by decide
    have h5 : digitsVal ['0', '5'] = some 5 := by decide
    have h6 : digitsVal ['3'] = some 3 := by decide
    unfold fredCleanValue castFloatQ
    rw [h1, h2]
    simp [parseUnsignedDec, h5, h6]
    norm_num
  refine ⟨?_, hval, ?_⟩
  · simp [fredValueReplace, replaceDotChars, hc]
  · intro h
    rw [hval] at h
    norm_num at h

/-- C2 witness: the amended statement at the concrete value string `"25.3"`. -/
theorem c2_witness :
    fredValueReplace (String.mk ['2', '5', '.', '3']) = String.mk ['0', '5', '.', '3'] :=
  (c2_first_char_replaced '2' ['5', '.', '3'] (by decide)).1

/-! ## C8 -/

/-- C8: invoking the monthly aggregation with a column name that is not a
column of the input table fails with the invalid-column error; no result
table is produced. -/
theorem c8_invalid_column (f : Frame) (c : String) (h : c ∉ f.columns) :
    dayToMonthChecked f c = Except.error AggError.invalidColumn := by
  have hv : c ∉ f.valueCols := fun hm => h (List.mem_cons_of_mem _ hm)
  unfold dayToMonthChecked Frame.getColumn
  rw [colIndex_eq_none hv]
  rfl

/-- C8 witness: a concrete frame with one value column and a name that is
not among its columns. -/
theorem c8_witness :
    dayToMonthChecked ⟨["value"], []⟩ "nope" = Except.error AggError.invalidColumn :=
  c8_invalid_column ⟨["value"], []⟩ "nope" (by decide)

/-! ## C10 -/

/-- C10: when the selected column exists but every row of the two-column view
has a missing date or a missing value, the aggregation returns an empty table
and raises no error (the code takes the empty-result branch of the spec's
implementer's choice). -/
theorem c10_empty_result (f : Frame) (c : String) (col : List Row)
    (h1 : f.getColumn c = Except.ok col)
    (h2 : ∀ r ∈ col, r.1 = none ∨ r.2 = none) :
    dayToMonthChecked f c = Except.ok [] := by
  unfold dayToMonthChecked
  rw [h1]
  have hclean : cleanRowsD col = [] := by
    refine List.filterMap_eq_nil_iff.2 fun r hr => ?_
    have hr2 := h2 r (by
      have := List.perm_insertionSort rowLe col
      exact this.mem_iff.1 hr)
    rcases r with ⟨_ | d, _ | v⟩ <;> first
      | rfl
      | (rcases hr2 with h3 | h3 <;> cases h3)
  show Except.ok (day_to_month_column col) = Except.ok []
  unfold day_to_month_column aggClean
  rw [hclean]
  rfl

/-- C10 witness: a concrete frame whose only rows have a null date or a null
value. -/
theorem c10_witness :
    dayToMonthChecked ⟨["x"], [(none, [some 1]), (some ⟨2024, 1, 5⟩, [none])]⟩ "x" =
      Except.ok [] :=
  c10_empty_result ⟨["x"], [(none, [some 1]), (some ⟨2024, 1, 5⟩, [none])]⟩ "x"
    [(none, some 1), (some ⟨2024, 1, 5⟩, none)] rfl (by decide)

/-! ## C4 -/

/-- C4 (counterexample): on the spec's three-row January example the code
does not produce the claimed monthly row: the claimed quantile_25 = 15 and
quantile_75 = 25 are linear-interpolation values, while polars' default
quantile interpolation is "nearest", which picks 20 and 30. -/
theorem c4_counterexample :
    day_to_month_column exampleJanRows ≠
      [{ month := (2024, 1), first := 10, last := 30, minv := 10, maxv := 30,
         mean := 20, median := 20, sumv := 60, q25 := 15, q75 := 25 }] := by
  rw [monthly_example_eval]
  decide

/-- C4 (amended): on the input rows `[(01-05, 10), (01-20, 30), (01-15, 20)]`
the monthly aggregation produces exactly one output row with first = 10,
last = 30, min = 10, max = 30, mean = 20, median = 20, sum = 60, and — by
polars' default "nearest" quantile interpolation — quantile_25 = 20 and
quantile_75 = 30 (not the claimed 15 and 25). -/
theorem c4_monthly_example :
    day_to_month_column exampleJanRows =
      [{ month := (2024, 1), first := 10, last := 30, minv := 10, maxv := 30,
         mean := 20, median := 20, sumv := 60, q25 := 20, q75 := 30 }] :=
  monthly_example_eval

/-! ## C3 -/

/-- C3 (counterexample): on the January example month with values
`{10, 20, 30}` the linear-interpolation quantile at fraction 1/4 is 15, but
the code's quantile_25 output is 20: polars' default interpolation is
"nearest", not the spec's "linear". -/
theorem c3_counterexample :
    (day_to_month_column exampleJanRows).map MonthRow.q25 ≠
      [linearQuantileSpec (1 / 4) (monthValsInput exampleJanRows (2024, 1))] := by
  have hv : monthValsInput exampleJanRows (2024, 1) = [10, 30, 20] := by decide
  have hlin : linearQuantileSpec (1 / 4) [10, 30, 20] = 15 := by
    norm_num [linearQuantileSpec, sortedVals, List.insertionSort, List.orderedInsert,
      List.getD, show ((⌈(1 / 2 : ℚ)⌉ : ℤ)) = 1 by rw [Int.ceil_eq_iff]; norm_num]
  rw [monthly_example_eval, hv, hlin]
  decide

/-- C3 (amended): for every input table and every output row of the monthly
aggregation, quantile_25 and quantile_75 equal the "nearest"-interpolation
quantile of the month's non-missing values — the sorted value at index
`round(q * (n - 1))` (rounding half away from zero) — not the
linear-interpolation quantile the spec prescribes. -/
theorem c3_nearest_quantile (rows : List Row) (row : MonthRow)
    (hrow : row ∈ day_to_month_column rows) :
    row.q25 = (sortedVals (monthValsInput rows row.month)).getD
        (nearestQIdx (1 / 4) (monthValsInput rows row.month).length) 0
    ∧ row.q75 = (sortedVals (monthValsInput rows row.month)).getD
        (nearestQIdx (3 / 4) (monthValsInput rows row.month).length) 0 := by
  obtain ⟨m, hm, rfl⟩ := mem_day_to_month.1 hrow
  have hperm : (monthGroupVals (cleanRowsD rows) m).Perm (monthValsInput rows m) :=
    List.Perm.map _ (List.Perm.filter _ (cleanRowsD_perm rows))
  have hsv : sortedVals (monthGroupVals (cleanRowsD rows) m) =
      sortedVals (monthValsInput rows m) := by
    refine List.eq_of_perm_of_sorted ?_ (List.sorted_insertionSort _ _)
      (List.sorted_insertionSort _ _)
    exact (List.perm_insertionSort _ _).trans
      (hperm.trans (List.perm_insertionSort _ _).symm)
  have hlen := hperm.length_eq
  simp only [month_mkStats]
  constructor
  · show statQuantile (1 / 4) (monthGroupVals (cleanRowsD rows) m) = _
    unfold statQuantile
    rw [hsv, hlen]
  · show statQuantile (3 / 4) (monthGroupVals (cleanRowsD rows) m) = _
    unfold statQuantile
    rw [hsv, hlen]

/-- C3 witness: the amended statement at the January example row. -/
theorem c3_witness :
    exampleMonthRow.q25 =
        (sortedVals (monthValsInput exampleJanRows exampleMonthRow.month)).getD
          (nearestQIdx (1 / 4) (monthValsInput exampleJanRows exampleMonthRow.month).length) 0
    ∧ exampleMonthRow.q75 =
        (sortedVals (monthValsInput exampleJanRows exampleMonthRow.month)).getD
          (nearestQIdx (3 / 4) (monthValsInput exampleJanRows exampleMonthRow.month).length) 0 :=
  c3_nearest_quantile exampleJanRows exampleMonthRow
    (by rw [monthly_example_eval]; exact List.mem_singleton_self _)

/-! ## C5 -/

theorem Date.ltP_irrefl (a : Date) : ¬Date.ltP a a :=
  fun h => (Date.ltP_iff.1 h).2 rfl

theorem insertKey_of_mem {x : Date} :
    ∀ {l : List Date}, l.Pairwise Date.ltP → x ∈ l → insertKey x l = l
  | [], _, hx => absurd hx (List.not_mem_nil x)
  | y :: ys, h, hx => by
      rcases List.mem_cons.1 hx with rfl | hx2
      · rw [insertKey, if_neg (Date.ltP_irrefl x), if_pos rfl]
      · have hlt : Date.ltP y x := List.rel_of_pairwise_cons h hx2
        have hne : ¬x = y := fun he => Date.ltP_irrefl y (he ▸ hlt)
        rw [insertKey, if_neg (fun hc => Date.ltP_asymm hc hlt), if_neg hne,
          insertKey_of_mem h.of_cons hx2]

theorem sortDedupKeys_of_sorted :
    ∀ {l : List Date}, l.Pairwise Date.ltP → sortDedupKeys l = l
  | [], _ => rfl
  | x :: xs, h => by
      show insertKey x (sortDedupKeys xs) = x :: xs
      rw [sortDedupKeys_of_sorted h.of_cons]
      cases xs with
      | nil => rfl
      | cons y ys =>
          rw [insertKey, if_pos (List.rel_of_pairwise_cons h (List.mem_cons_self y ys))]

theorem foldr_insertKey_fix {k : List Date} (hk : k.Pairwise Date.ltP) :
    ∀ {l : List Date}, (∀ x ∈ l, x ∈ k) → l.foldr insertKey k = k
  | [], _ => rfl
  | x :: xs, hsub => by
      show insertKey x (xs.foldr insertKey k) = k
      rw [foldr_insertKey_fix hk fun y hy => hsub y (List.mem_cons_of_mem x hy)]
      exact insertKey_of_mem hk (hsub x (List.mem_cons_self x xs))

theorem lookupRow_eq :
    ∀ {rows : List (Date × List (Option ℚ))},
      ((rows.map fun r => r.1).Nodup) → ∀ {d v}, (d, v) ∈ rows →
        lookupRow rows d = some v
  | [], _, _, _, hm => absurd hm (List.not_mem_nil _)
  | a :: rest, h, d, v, hm => by
      rw [List.map_cons, List.nodup_cons] at h
      rcases List.mem_cons.1 hm with rfl | hm2
      · unfold lookupRow
        rw [List.find?_cons_of_pos _ (by simp)]
        rfl
      · have hne : ¬a.1 = d := fun he =>
          h.1 (he ▸ List.mem_map.2 ⟨(d, v), hm2, rfl⟩)
        unfold lookupRow
        rw [List.find?_cons_of_neg _ (by simpa using hne)]
        exact lookupRow_eq h.2 hm2

/-- C5 (counterexample): outer-coalesce-joining a table with itself is not
the identity: the value columns collide in name and polars duplicates them
under the `"_right"` suffix, so the result has extra columns. -/
theorem c5_counterexample :
    joinOuterCoalesce ⟨["x"], [(⟨2024, 1, 5⟩, [some 1])]⟩
        ⟨["x"], [(⟨2024, 1, 5⟩, [some 1])]⟩ ≠
      ⟨["x"], [(⟨2024, 1, 5⟩, [some 1])]⟩ := by
  decide

/-- C5 (amended): for a table `A` with strictly ascending (hence unique)
dates and rectangular rows, outer-coalesce-joining `A` with itself on date
keeps exactly `A`'s keys and `A`'s values but duplicates every non-key column
under a `"_right"` suffix; dropping the suffixed copies recovers `A`
exactly. -/
theorem c5_self_join (A : JDF)
    (hsort : (A.rows.map fun r => r.1).Pairwise Date.ltP)
    (hlen : ∀ r ∈ A.rows, r.2.length = A.cols.length) :
    joinOuterCoalesce A A =
      { cols := A.cols ++ A.cols.map fun c => c ++ "_right"
        rows := A.rows.map fun r => (r.1, r.2 ++ r.2) }
    ∧ JDF.mk A.cols
        ((joinOuterCoalesce A A).rows.map fun r => (r.1, r.2.take A.cols.length)) = A := by
  have hnodup : (A.rows.map fun r => r.1).Nodup :=
    hsort.imp fun hab => (Date.ltP_iff.1 hab).2
  have hkeys : sortDedupKeys ((A.rows.map fun r => r.1) ++ (A.rows.map fun r => r.1)) =
      A.rows.map fun r => r.1 := by
    rw [sortDedupKeys, List.foldr_append]
    rw [show List.foldr insertKey [] (A.rows.map fun r => r.1) =
          sortDedupKeys (A.rows.map fun r => r.1) from rfl,
      sortDedupKeys_of_sorted hsort]
    exact foldr_insertKey_fix hsort fun x hx => hx
  have hjoin : joinOuterCoalesce A A =
      { cols := A.cols ++ A.cols.map fun c => c ++ "_right"
        rows := A.rows.map fun r => (r.1, r.2 ++ r.2) } := by
    unfold joinOuterCoalesce suffixCols
    congr 1
    · congr 1
      exact List.map_congr_left fun c hc => if_pos hc
    · rw [hkeys, List.map_map]
      refine List.map_congr_left fun r hr => ?_
      have hl : lookupRow A.rows r.1 = some r.2 :=
        lookupRow_eq hnodup (by rw [Prod.mk.eta]; exact hr)
      simp [Function.comp_def, hl]
  refine ⟨hjoin, ?_⟩
  rw [hjoin]
  obtain ⟨cols, rows⟩ := A
  simp only at hlen ⊢
  congr 1
  rw [List.map_map]
  refine (List.map_congr_left fun r hr => ?_).trans (List.map_id rows)
  show (r.1, (r.2 ++ r.2).take cols.length) = r
  rw [← hlen r hr, List.take_left, Prod.mk.eta]

/-- A concrete unique-key table for the join witness. -/
def exampleJoinTable : JDF :=
  ⟨["x"], [(⟨2024, 1, 5⟩, [some 1]), (⟨2024, 1, 6⟩, [some 2])]⟩

/-- C5 witness: the amended statement at a concrete two-row table. -/
theorem c5_witness :
    joinOuterCoalesce exampleJoinTable exampleJoinTable =
      { cols := exampleJoinTable.cols ++ exampleJoinTable.cols.map fun c => c ++ "_right"
        rows := exampleJoinTable.rows.map fun r => (r.1, r.2 ++ r.2) } :=
  (c5_self_join exampleJoinTable (by decide) (by decide)).1

/-! ## C9 -/

/-- C9: for every sequence of raw daily price records, the daily table
builder outputs the columns `{date, volume, open, close, high, low, H-L,
C-O}` in that order, sorted ascending by date; each row is the per-row
transform of one input record (no row filtering, so the output is a
permutation of the transformed inputs and has the input's length); per row,
`H-L` and `C-O` are the null-propagating differences `high - low` and
`close - open`, missing exactly when an operand is missing. -/
theorem c9_daily_builder (rs : List RawRecord) :
    (daily_stock_dataframe rs).Perm (rs.map toDailyRow)
    ∧ (daily_stock_dataframe rs).Pairwise dailyRowLe
    ∧ (∀ row ∈ daily_stock_dataframe rs,
        row.hl = optSub row.high row.low ∧ row.co = optSub row.close_ row.open_
        ∧ (row.hl = none ↔ row.high = none ∨ row.low = none)
        ∧ (row.co = none ↔ row.close_ = none ∨ row.open_ = none))
    ∧ (daily_stock_dataframe rs).length = rs.length
    ∧ dailyColumns = ["date", "volume", "open", "close", "high", "low", "H-L", "C-O"] := by
  refine ⟨List.perm_insertionSort _ _, List.sorted_insertionSort _ _, ?_, ?_, rfl⟩
  · intro row hrow
    have hmem2 : row ∈ rs.map toDailyRow := (List.mem_insertionSort dailyRowLe).1 hrow
    obtain ⟨r, hr, rfl⟩ := List.mem_map.1 hmem2
    obtain ⟨rd, fd, vol, op, cl, hi, lo⟩ := r
    refine ⟨rfl, rfl, ?_, ?_⟩
    · cases hi <;> cases lo <;> simp [toDailyRow, optSub]
    · cases cl <;> cases op <;> simp [toDailyRow, optSub]
  · rw [show daily_stock_dataframe rs =
        List.insertionSort dailyRowLe (rs.map toDailyRow) from rfl,
      List.length_insertionSort, List.length_map]

/-- A concrete pair of raw records (out of date order, with a missing open
price) for the daily-builder witness. -/
def exampleRawRecords : List RawRecord :=
  [⟨1704500000, ⟨2024, 1, 6⟩, some 100, some 1, some 2, some 5, some 1⟩,
    ⟨1704400000, ⟨2024, 1, 5⟩, some 200, none, some 3, some 6, some 2⟩]

/-- C9 witness: the daily builder output at a concrete record list is a
permutation of the transformed records. -/
theorem c9_witness :
    (daily_stock_dataframe exampleRawRecords).Perm (exampleRawRecords.map toDailyRow) :=
  (c9_daily_builder exampleRawRecords).1

/-! ## C7 -/

theorem filterMap_orderedInsert_none {α β : Type} (r : α → α → Prop) [DecidableRel r]
    (f : α → Option β) (x : α) (hx : f x = none) :
    ∀ l : List α, (List.orderedInsert r x l).filterMap f = l.filterMap f
  | [] => by simp [hx]
  | y :: ys => by
      rw [List.orderedInsert]
      by_cases h : r x y
      · rw [if_pos h, List.filterMap_cons, hx]
      · rw [if_neg h, List.filterMap_cons, List.filterMap_cons,
          filterMap_orderedInsert_none r f x hx ys]

/-- C7: a month appears in the aggregation output exactly when some input row
has a non-missing date truncating to that month and a non-missing value; and
a row with a missing value contributes to no month's statistics — adding such
a row (any date, null value) leaves the output unchanged. -/
theorem c7_month_presence (rows : List Row) :
    (∀ m : Month, (∃ row ∈ day_to_month_column rows, row.month = m) ↔
        ∃ d v, (some d, some v) ∈ rows ∧ monthKey d = m)
    ∧ ∀ d0 : Option Date,
        day_to_month_column ((d0, none) :: rows) = day_to_month_column rows := by
  constructor
  · intro m
    constructor
    · rintro ⟨row, hrow, hmonth⟩
      obtain ⟨m2, hm2, rfl⟩ := mem_day_to_month.1 hrow
      rw [month_mkStats] at hmonth
      subst hmonth
      rw [List.mem_dedup] at hm2
      obtain ⟨p, hp, hkey⟩ := List.mem_map.1 hm2
      exact ⟨p.1, p.2, mem_cleanRowsD.1 hp, hkey⟩
    · rintro ⟨d, v, hmem, hkey⟩
      refine ⟨mkStats m (monthGroupVals (cleanRowsD rows) m), ?_, month_mkStats m _⟩
      refine mem_day_to_month.2 ⟨m, ?_, rfl⟩
      rw [List.mem_dedup]
      exact List.mem_map.2 ⟨(d, v), mem_cleanRowsD.2 hmem, hkey⟩
  · intro d0
    unfold day_to_month_column
    congr 1
    show (List.orderedInsert rowLe (d0, none) (List.insertionSort rowLe rows)).filterMap
        cleanRow? = (List.insertionSort rowLe rows).filterMap cleanRow?
    exact filterMap_orderedInsert_none rowLe cleanRow? (d0, none) (cleanRow?_none_snd d0) _

/-- C7 witness: the characterization at the January example and the
null-value-row invariance at a concrete extra row. -/
theorem c7_witness :
    (∃ row ∈ day_to_month_column exampleJanRows, row.month = (2024, 1))
    ∧ day_to_month_column ((none, none) :: exampleJanRows) =
        day_to_month_column exampleJanRows :=
  ⟨((c7_month_presence exampleJanRows).1 (2024, 1)).mpr
      ⟨⟨2024, 1, 5⟩, 10, by decide, rfl⟩,
    (c7_month_presence exampleJanRows).2 none⟩

/-! ## C6 -/

theorem rel_of_getLast?_pairwise {α : Type} {R : α → α → Prop} :
    ∀ {l : List α}, l.Pairwise R → ∀ {a b : α}, a ∈ l → l.getLast? = some b →
      a = b ∨ R a b
  | [], _, _, _, ha, _ => absurd ha (List.not_mem_nil _)
  | [x], _, a, b, ha, hb => by
      rw [List.mem_singleton] at ha
      rw [List.getLast?_singleton, Option.some.injEq] at hb
      left
      rw [ha, hb]
  | x :: y :: t, h, a, b, ha, hb => by
      rw [List.getLast?_cons_cons] at hb
      rcases List.mem_cons.1 ha with rfl | ha2
      · exact Or.inr (List.rel_of_pairwise_cons h (List.mem_of_getLast?_eq_some hb))
      · exact rel_of_getLast?_pairwise h.of_cons ha2 hb

/-- Sorted-by-key rows with pairwise-distinct keys are strictly sorted. -/
theorem pairwise_ltKey_of_nodup {l : List (Date × ℚ)}
    (hle : l.Pairwise fun p q => Date.leP p.1 q.1)
    (hnd : (l.map fun p => p.1).Nodup) :
    l.Pairwise fun p q => Date.ltP p.1 q.1 := by
  have hne : l.Pairwise fun p q => p.1 ≠ q.1 := List.pairwise_map.1 hnd
  exact (hle.and hne).imp fun hab => Date.ltP_iff.2 hab

/-- C6: when the usable rows have pairwise-distinct dates, the monthly
aggregation is invariant under any reordering of the input rows, and within
each month the `first` column is the value of the chronologically earliest
usable row of that month and the `last` column the value of the latest. -/
theorem c6_first_last (rows rows2 : List Row) (hperm : rows.Perm rows2)
    (hnodup : ((rows.filterMap cleanRow?).map fun p => p.1).Nodup) :
    day_to_month_column rows = day_to_month_column rows2
    ∧ (∀ d v, (some d, some v) ∈ rows →
        (∀ p ∈ rows.filterMap cleanRow?, monthKey p.1 = monthKey d → Date.leP d p.1) →
        ∀ row ∈ day_to_month_column rows, row.month = monthKey d → row.first = v)
    ∧ (∀ d v, (some d, some v) ∈ rows →
        (∀ p ∈ rows.filterMap cleanRow?, monthKey p.1 = monthKey d → Date.leP p.1 d) →
        ∀ row ∈ day_to_month_column rows, row.month = monthKey d → row.last = v) := by
  have hclean_nd : ((cleanRowsD rows).map fun p => p.1).Nodup :=
    ((cleanRowsD_perm rows).map fun p => p.1).nodup_iff.2 hnodup
  refine ⟨?_, ?_, ?_⟩
  · have hp : (cleanRowsD rows).Perm (cleanRowsD rows2) :=
      (cleanRowsD_perm rows).trans
        ((hperm.filterMap cleanRow?).trans (cleanRowsD_perm rows2).symm)
    have hlt1 := pairwise_ltKey_of_nodup (cleanRowsD_sorted rows) hclean_nd
    have hnd2 : ((cleanRowsD rows2).map fun p => p.1).Nodup :=
      (hp.map fun p => p.1).nodup_iff.1 hclean_nd
    have hlt2 := pairwise_ltKey_of_nodup (cleanRowsD_sorted rows2) hnd2
    haveI : IsAntisymm (Date × ℚ) fun p q => Date.ltP p.1 q.1 :=
      ⟨fun a b h1 h2 => (Date.ltP_asymm h1 h2).elim⟩
    have heq : cleanRowsD rows = cleanRowsD rows2 :=
      List.eq_of_perm_of_sorted hp hlt1 hlt2
    unfold day_to_month_column
    rw [heq]
  · intro d v hmem hmin row hrow hmonth
    obtain ⟨m, _, rfl⟩ := mem_day_to_month.1 hrow
    rw [month_mkStats] at hmonth
    subst hmonth
    show statFirst (monthGroupVals (cleanRowsD rows) (monthKey d)) = v
    have hdv : (d, v) ∈ (cleanRowsD rows).filter fun p => decide (monthKey p.1 = monthKey d) :=
      List.mem_filter.2 ⟨mem_cleanRowsD.2 hmem, by simp⟩
    have hFs : ((cleanRowsD rows).filter fun p => decide (monthKey p.1 = monthKey d)).Pairwise
        fun p q => Date.leP p.1 q.1 :=
      (cleanRowsD_sorted rows).filter _
    obtain ⟨f0, rest, hF⟩ : ∃ f0 rest,
        (cleanRowsD rows).filter (fun p => decide (monthKey p.1 = monthKey d)) =
          f0 :: rest := by
      rcases hF2 : (cleanRowsD rows).filter fun p => decide (monthKey p.1 = monthKey d)
        with _ | ⟨a, b⟩
      · rw [hF2] at hdv; cases hdv
      · exact ⟨a, b, hF2⟩
    have hfirst : statFirst (monthGroupVals (cleanRowsD rows) (monthKey d)) = f0.2 := by
      unfold monthGroupVals statFirst
      rw [hF]
      rfl
    rw [hfirst]
    have hf0 : f0 ∈ (cleanRowsD rows).filter fun p => decide (monthKey p.1 = monthKey d) := by
      rw [hF]; exact List.mem_cons_self _ _
    have hf0clean : f0 ∈ cleanRowsD rows := (List.mem_filter.1 hf0).1
    have hf0key : monthKey f0.1 = monthKey d := by
      have h2 := (List.mem_filter.1 hf0).2
      simpa using h2
    have hled : Date.leP d f0.1 :=
      hmin f0 ((cleanRowsD_perm rows).mem_iff.1 hf0clean) hf0key
    rw [hF] at hdv hFs
    rcases List.mem_cons.1 hdv with heq | hrest
    · rw [← heq]
    · have hle2 : Date.leP f0.1 d := List.rel_of_pairwise_cons hFs hrest
      have hkeyeq : f0.1 = d := Date.leP_antisymm hle2 hled
      have hdc : (d, f0.2) ∈ cleanRowsD rows := by
        rw [← hkeyeq, Prod.mk.eta]; exact hf0clean
      exact snd_eq_of_nodup_keys hclean_nd hdc (mem_cleanRowsD.2 hmem)
  · intro d v hmem hmax row hrow hmonth
    obtain ⟨m, _, rfl⟩ := mem_day_to_month.1 hrow
    rw [month_mkStats] at hmonth
    subst hmonth
    show statLast (monthGroupVals (cleanRowsD rows) (monthKey d)) = v
    have hdv : (d, v) ∈ (cleanRowsD rows).filter fun p => decide (monthKey p.1 = monthKey d) :=
      List.mem_filter.2 ⟨mem_cleanRowsD.2 hmem, by simp⟩
    have hFs : ((cleanRowsD rows).filter fun p => decide (monthKey p.1 = monthKey d)).Pairwise
        fun p q => Date.leP p.1 q.1 :=
      (cleanRowsD_sorted rows).filter _
    obtain ⟨l0, hl0⟩ : ∃ x, ((cleanRowsD rows).filter fun p =>
        decide (monthKey p.1 = monthKey d)).getLast? = some x := by
      rcases hF2 : (cleanRowsD rows).filter fun p => decide (monthKey p.1 = monthKey d)
        with _ | ⟨a, b⟩
      · rw [hF2] at hdv; cases hdv
      · rw [hF2]
        exact ⟨(a :: b).getLast (by simp), List.getLast?_eq_getLast _ (by simp)⟩
    have hlast : statLast (monthGroupVals (cleanRowsD rows) (monthKey d)) = l0.2 := by
      unfold monthGroupVals statLast
      rw [List.getLastD_eq_getLast?, List.getLast?_map, hl0]
      rfl
    rw [hlast]
    have hl0mem : l0 ∈ (cleanRowsD rows).filter fun p => decide (monthKey p.1 = monthKey d) :=
      List.mem_of_getLast?_eq_some hl0
    have hl0clean : l0 ∈ cleanRowsD rows := (List.mem_filter.1 hl0mem).1
    have hl0key : monthKey l0.1 = monthKey d := by
      have h2 := (List.mem_filter.1 hl0mem).2
      simpa using h2
    have hled : Date.leP l0.1 d :=
      hmax l0 ((cleanRowsD_perm rows).mem_iff.1 hl0clean) hl0key
    rcases rel_of_getLast?_pairwise hFs hdv hl0 with heq | hrel
    · rw [← heq]
    · have hkeyeq : l0.1 = d := Date.leP_antisymm hled hrel
      have hdc : (d, l0.2) ∈ cleanRowsD rows := by
        rw [← hkeyeq, Prod.mk.eta]; exact hl0clean
      exact snd_eq_of_nodup_keys hclean_nd hdc (mem_cleanRowsD.2 hmem)

/-- C6 witness: reordering the January example rows leaves the output
unchanged, and `first` of the January row is the value of its earliest date
(5 January), discharged at the concrete example. -/
theorem c6_witness :
    day_to_month_column exampleJanRows = day_to_month_column exampleJanRowsPerm
    ∧ exampleMonthRow.first = 10 :=
  ⟨(c6_first_last exampleJanRows exampleJanRowsPerm (by decide) (by decide)).1,
    (c6_first_last exampleJanRows exampleJanRowsPerm (by decide) (by decide)).2.1
      ⟨2024, 1, 5⟩ 10 (by decide) (by decide) exampleMonthRow
      (by rw [monthly_example_eval]; exact List.mem_singleton_self _) rfl⟩

end EconTrends
